import Mathlib

/-
Verification of the JsonStudio multi-tab / diff-mode session state manager
(`src/routes/+layout.svelte`, tabs store section).

The TypeScript store is shallow-embedded: each store operation becomes a pure
function `TabsState → TabsState` (or `StoreState → StoreState` when the diff
session is involved).  Nondeterministic id generation (`generateId`) is made
explicit: every operation that creates a tab takes the generated id as a
`fresh : String` argument.  JavaScript `string | null` fields become
`Option String`; JS truthiness tests on strings (`tab.filePath ? ... : ...`,
`if (rightTab.filePath && ...)`) are embedded via `pathTruthy`, which is false
exactly on `none` and `some ""`.  JS array indexing `a[i]` (which the source
only performs at provably in-range indices) is totalized with `List.getD`.
-/

namespace JsonStudio

/-- JSON statistics attached to a tab (interface `JsonStats` in
`lib/services/json.ts`; `error_info` is an opaque payload here). -/
structure JsonStats where
  valid : Bool
  key_count : Nat
  depth : Nat
  byte_size : Nat
  error_info : Option String
deriving DecidableEq, Repr

/-- One editor tab (interface `Tab`). -/
structure Tab where
  id : String
  filePath : Option String
  fileName : Option String
  content : String
  isModified : Bool
  stats : JsonStats
  isDefault : Bool
  isPinned : Bool
deriving DecidableEq, Repr

/-- `TabsState`: the primary session state. -/
structure TabsState where
  tabs : List Tab
  activeTabId : Option String
deriving DecidableEq, Repr

/-- `DiffModeState`: the transient diff session. -/
structure DiffModeState where
  leftTabs : List Tab
  rightTabs : List Tab
  leftActiveTabId : Option String
  rightActiveTabId : Option String
deriving DecidableEq, Repr

/-- The whole store: the writable tabs state plus the (possibly absent)
diff-mode store. -/
structure StoreState where
  session : TabsState
  diffMode : Option DiffModeState
deriving DecidableEq, Repr

def MAX_TABS : Nat := 10

def createEmptyStats : JsonStats :=
  { valid := false, key_count := 0, depth := 0, byte_size := 0, error_info := none }

/-- `createNewTab`; the generated id is passed explicitly. -/
def createNewTab (id : String) (content : String := "")
    (filePath : Option String := none) (fileName : Option String := none)
    (isDefault : Bool := false) (isPinned : Bool := false) : Tab :=
  { id := id, filePath := filePath, fileName := fileName, content := content,
    isModified := false, stats := createEmptyStats,
    isDefault := isDefault, isPinned := isPinned }

/-- `createDefaultTab()` = `createNewTab('', null, null, true)`. -/
def createDefaultTab (id : String) : Tab :=
  createNewTab id "" none none true

/-- Default tab used only to totalize JS array indexing that the source
performs at provably in-range positions. -/
def dtab : Tab := createNewTab ""

/-- JS truthiness of a `string | null` value: `null` and `""` are falsy. -/
def pathTruthy : Option String → Bool
  | none => false
  | some p => p ≠ ""

/-- JS `arr.splice(i, 0, a)`: insert `a` at position `i`, clamping `i` to the
length of the list (insertion past the end appends). -/
def spliceInsert (l : List α) (i : Nat) (a : α) : List α :=
  l.take i ++ a :: l.drop i

/-- `moveTab` of the source, faithful to JS `splice` semantics over arrays that
may contain `undefined` (modelled as `none`): for an out-of-range `fromIndex`
the destructuring `const [removed] = splice(fromIndex, 1)` yields `undefined`,
which is then inserted, growing the array by one hole. -/
def moveTabJS (l : List (Option α)) (fromIndex toIndex : Nat) : List (Option α) :=
  if fromIndex = toIndex then l
  else spliceInsert (l.eraseIdx fromIndex) toIndex ((l.get? fromIndex).join)

/-- `moveTab` restricted to tab lists without holes; it agrees with `moveTabJS`
for every in-range `fromIndex` (lemma `moveTabJS_map_some`), which is the only
way the source invokes it on states reachable through the UI. -/
def moveTab (l : List α) (fromIndex toIndex : Nat) : List α :=
  if fromIndex = toIndex then l
  else
    match l.get? fromIndex with
    | none => l
    | some removed => spliceInsert (l.eraseIdx fromIndex) toIndex removed

/-- JS `Array.prototype.findIndex`, with `none` for `-1`. -/
def jsFindIndex (p : α → Bool) : List α → Option Nat
  | [] => none
  | a :: l => if p a then some 0 else (jsFindIndex p l).map (· + 1)

/-- The `reduce` in `togglePinTab` computing the last index of a pinned tab
other than `tabIndex` (`-1` when none). -/
def lastPinnedIdxAux (m : Nat) : List Tab → Nat → Int → Int
  | [], _, last => last
  | t :: ts, i, last =>
    lastPinnedIdxAux m ts (i + 1) (if t.isPinned && i ≠ m then (i : Int) else last)

def lastPinnedIdx (tabs : List Tab) (m : Nat) : Int :=
  lastPinnedIdxAux m tabs 0 (-1)

/-- The `findIndex` in `togglePinTab` locating the first unpinned tab other
than `tabIndex` (`-1` when none). -/
def firstUnpinnedIdxAux (m : Nat) : List Tab → Nat → Int
  | [], _ => -1
  | t :: ts, i =>
    if !t.isPinned && i ≠ m then (i : Int) else firstUnpinnedIdxAux m ts (i + 1)

def firstUnpinnedIdx (tabs : List Tab) (m : Nat) : Int :=
  firstUnpinnedIdxAux m tabs 0

/-! ### Session Store operations (§4.1) -/

/-- `addTab`. -/
def addTab (fresh : String) (content : String) (filePath fileName : Option String)
    (s : TabsState) : TabsState :=
  if s.tabs.length ≥ MAX_TABS then s
  else
    let newTab := createNewTab fresh content filePath fileName
    { tabs := s.tabs ++ [newTab], activeTabId := some newTab.id }

/-- `removeTab`; `fresh` is the id generated for the replacement tab when the
collection would become empty. -/
def removeTab (fresh tabId : String) (s : TabsState) : TabsState :=
  match jsFindIndex (fun t => t.id = tabId) s.tabs with
  | none => s
  | some tabIndex =>
    let newTabs0 := s.tabs.filter (fun t => t.id ≠ tabId)
    let newTabs := if newTabs0.isEmpty then [createNewTab fresh] else newTabs0
    let newActiveId :=
      if s.activeTabId = some tabId then
        some ((newTabs.getD (tabIndex - 1) dtab).id)
      else s.activeTabId
    { tabs := newTabs, activeTabId := newActiveId }

/-- `setActiveTab`. -/
def setActiveTab (tabId : String) (s : TabsState) : TabsState :=
  if (s.tabs.find? (fun t => t.id = tabId)).isNone then s
  else { s with activeTabId := some tabId }

/-- `updateTabContent`. -/
def updateTabContent (tabId content : String) (s : TabsState) : TabsState :=
  { s with
    tabs := s.tabs.map (fun tab =>
      if tab.id = tabId then
        { tab with content := content,
                   isModified := if pathTruthy tab.filePath then true else tab.isModified }
      else tab) }

/-- `updateTabFile`. -/
def updateTabFile (tabId : String) (filePath fileName : Option String)
    (s : TabsState) : TabsState :=
  { s with
    tabs := s.tabs.map (fun tab =>
      if tab.id = tabId then
        { tab with filePath := filePath, fileName := fileName,
                   isModified := false, isDefault := false }
      else tab) }

/-- `updateTabModified`. -/
def updateTabModified (tabId : String) (isModified : Bool) (s : TabsState) : TabsState :=
  { s with
    tabs := s.tabs.map (fun tab =>
      if tab.id = tabId then { tab with isModified := isModified } else tab) }

/-- `updateTabStats`. -/
def updateTabStats (tabId : String) (stats : JsonStats) (s : TabsState) : TabsState :=
  { s with
    tabs := s.tabs.map (fun tab =>
      if tab.id = tabId then { tab with stats := stats } else tab) }

/-- `reorderTabs`. -/
def reorderTabs (fromIndex toIndex : Nat) (s : TabsState) : TabsState :=
  { s with tabs := moveTab s.tabs fromIndex toIndex }

/-- `closeOtherTabs`.  The `keepTabs[0].id` fallback of the source's
`find(...)?.id || keepTabs[0].id` also fires when the found id is the empty
string (JS falsiness). -/
def closeOtherTabs (tabId : String) (s : TabsState) : TabsState :=
  match s.tabs.find? (fun t => t.id = tabId) with
  | none => s
  | some _ =>
    let keepTabs := s.tabs.filter (fun t => t.id = tabId || t.isPinned)
    let newActiveId :=
      match keepTabs.find? (fun t => t.id = tabId) with
      | some t => if t.id = "" then (keepTabs.getD 0 dtab).id else t.id
      | none => (keepTabs.getD 0 dtab).id
    { tabs := keepTabs, activeTabId := some newActiveId }

/-- `togglePinTab`. -/
def togglePinTab (tabId : String) (s : TabsState) : TabsState :=
  match jsFindIndex (fun t => t.id = tabId) s.tabs with
  | none => s
  | some tabIndex =>
    let targetTab := s.tabs.getD tabIndex dtab
    let nextPinned := !targetTab.isPinned
    let updatedTab := { targetTab with isPinned := nextPinned }
    let updatedTabs := s.tabs.set tabIndex updatedTab
    let newTabs :=
      if nextPinned then
        let lastPinnedIndex := lastPinnedIdx updatedTabs tabIndex
        let insertIndex := (lastPinnedIndex + 1).toNat
        moveTab updatedTabs tabIndex insertIndex
      else
        let firstUnpinnedIndex := firstUnpinnedIdx updatedTabs tabIndex
        let insertIndex :=
          if firstUnpinnedIndex = -1 then updatedTabs.length - 1
          else firstUnpinnedIndex.toNat
        moveTab updatedTabs tabIndex insertIndex
    { s with tabs := newTabs }

/-- `closeAllTabs`. -/
def closeAllTabs (fresh : String) (_s : TabsState) : TabsState :=
  let newTab := createDefaultTab fresh
  { tabs := [newTab], activeTabId := some newTab.id }

/-- `reset`.  Identical to `closeAllTabs` in the source; neither touches the
diff-mode store. -/
def reset (fresh : String) (_s : TabsState) : TabsState :=
  let newTab := createDefaultTab fresh
  { tabs := [newTab], activeTabId := some newTab.id }

/-! ### Persistence adapter (`saveState` / `loadState`) -/

/-- The per-tab sanitization applied by `saveState` before writing. -/
def saveTabSanitize (t : Tab) : Tab :=
  { t with filePath := none, fileName := none,
           content := if t.content.length > 100000 then "" else t.content }

/-- `saveState`: the value written to the durable store (JSON round-tripping
through `localStorage` is modelled as the identity on this value). -/
def saveState (s : TabsState) : TabsState :=
  { tabs := s.tabs.map saveTabSanitize, activeTabId := s.activeTabId }

/-- The per-tab sanitization applied by `loadState` to the parsed value:
paths are never restored and `isModified` is reset to `false`
(`isDefault ?? false` / `isPinned ?? false` are identities in a typed state). -/
def loadTabSanitize (t : Tab) : Tab :=
  { t with filePath := none, fileName := none, isModified := false }

/-- `loadState` applied to a successfully parsed stored value; `fresh` is the
id generated for the default tab pushed when no tab survives.  The
`parsed.activeTabId && find(...)` condition is falsy for a stored `null` or
`""` active id. -/
def loadState (fresh : String) (stored : TabsState) : TabsState :=
  let sanitizedTabs0 := stored.tabs.map loadTabSanitize
  let sanitizedTabs :=
    if sanitizedTabs0.isEmpty then [createDefaultTab fresh] else sanitizedTabs0
  let activeId :=
    match stored.activeTabId with
    | some a =>
      if a ≠ "" && ((sanitizedTabs.find? (fun t => t.id = a)).isSome) then some a
      else some ((sanitizedTabs.getD 0 dtab).id)
    | none => some ((sanitizedTabs.getD 0 dtab).id)
  { tabs := sanitizedTabs, activeTabId := activeId }

/-! ### Diff-mode operations (§4.2) -/

/-- `enterDiffMode`: unconditionally installs fresh clones of the current tabs
on both sides (in a pure embedding a deep clone is the value itself) and
leaves the primary session untouched. -/
def enterDiffMode (st : StoreState) : StoreState :=
  { st with
    diffMode := some
      { leftTabs := st.session.tabs, rightTabs := st.session.tabs,
        leftActiveTabId := st.session.activeTabId,
        rightActiveTabId := st.session.activeTabId } }

/-- The merge loop of `exitDiffMode`: left tabs verbatim, then each right tab
unless its id is in the left id set or its truthy `filePath` is in the set of
truthy left file paths. -/
def mergeTabs (leftTabs rightTabs : List Tab) : List Tab :=
  let leftTabIds := leftTabs.map (fun t => t.id)
  let leftFilePaths :=
    (leftTabs.filter (fun t => pathTruthy t.filePath)).filterMap (fun t => t.filePath)
  rightTabs.foldl
    (fun mergedTabs rightTab =>
      if rightTab.id ∈ leftTabIds then mergedTabs
      else if pathTruthy rightTab.filePath
              && (rightTab.filePath.getD "") ∈ leftFilePaths then mergedTabs
      else mergedTabs ++ [rightTab])
    leftTabs

/-- `exitDiffMode`; `fresh` is the id generated should the defensive
`createDefaultTab` push fire. -/
def exitDiffMode (fresh : String) (st : StoreState) : StoreState :=
  match st.diffMode with
  | none => st
  | some d =>
    let mergedTabs0 := mergeTabs d.leftTabs d.rightTabs
    let mergedTabs :=
      if mergedTabs0.isEmpty then [createDefaultTab fresh] else mergedTabs0
    let newActiveId :=
      match d.leftActiveTabId with
      | some a =>
        if (mergedTabs.find? (fun t => t.id = a)).isSome then some a
        else some ((mergedTabs.getD 0 dtab).id)
      | none => some ((mergedTabs.getD 0 dtab).id)
    { session := { tabs := mergedTabs, activeTabId := newActiveId },
      diffMode := none }

/-- `addDiffLeftTab`. -/
def addDiffLeftTab (fresh : String) (content : String) (filePath fileName : Option String)
    (st : StoreState) : StoreState :=
  match st.diffMode with
  | none => st
  | some d =>
    if d.leftTabs.length ≥ MAX_TABS then st
    else
      let newTab := createNewTab fresh content filePath fileName
      { st with
        diffMode := some { d with leftTabs := d.leftTabs ++ [newTab],
                                  leftActiveTabId := some newTab.id } }

/-- `addDiffRightTab`. -/
def addDiffRightTab (fresh : String) (content : String) (filePath fileName : Option String)
    (st : StoreState) : StoreState :=
  match st.diffMode with
  | none => st
  | some d =>
    if d.rightTabs.length ≥ MAX_TABS then st
    else
      let newTab := createNewTab fresh content filePath fileName
      { st with
        diffMode := some { d with rightTabs := d.rightTabs ++ [newTab],
                                  rightActiveTabId := some newTab.id } }

/-- `removeDiffLeftTab`. -/
def removeDiffLeftTab (fresh tabId : String) (st : StoreState) : StoreState :=
  match st.diffMode with
  | none => st
  | some d =>
    match jsFindIndex (fun t => t.id = tabId) d.leftTabs with
    | none => st
    | some tabIndex =>
      let newTabs0 := d.leftTabs.filter (fun t => t.id ≠ tabId)
      let newTabs := if newTabs0.isEmpty then [createNewTab fresh] else newTabs0
      let newActiveId :=
        if d.leftActiveTabId = some tabId then
          some ((newTabs.getD (tabIndex - 1) dtab).id)
        else d.leftActiveTabId
      { st with
        diffMode := some { d with leftTabs := newTabs, leftActiveTabId := newActiveId } }

/-- `removeDiffRightTab`. -/
def removeDiffRightTab (fresh tabId : String) (st : StoreState) : StoreState :=
  match st.diffMode with
  | none => st
  | some d =>
    match jsFindIndex (fun t => t.id = tabId) d.rightTabs with
    | none => st
    | some tabIndex =>
      let newTabs0 := d.rightTabs.filter (fun t => t.id ≠ tabId)
      let newTabs := if newTabs0.isEmpty then [createNewTab fresh] else newTabs0
      let newActiveId :=
        if d.rightActiveTabId = some tabId then
          some ((newTabs.getD (tabIndex - 1) dtab).id)
        else d.rightActiveTabId
      { st with
        diffMode := some { d with rightTabs := newTabs, rightActiveTabId := newActiveId } }

/-- `closeAllTabs` at the store level: the diff-mode store is not touched. -/
def closeAllTabsStore (fresh : String) (st : StoreState) : StoreState :=
  { st with session := closeAllTabs fresh st.session }

/-- `reset` at the store level: the diff-mode store is not touched. -/
def resetStore (fresh : String) (st : StoreState) : StoreState :=
  { st with session := reset fresh st.session }

/-! ### Operation inventories -/

/-- The single-track Session Store operations of §4.1. -/
inductive SessionOp where
  | addTab (fresh content : String) (filePath fileName : Option String)
  | removeTab (fresh tabId : String)
  | setActiveTab (tabId : String)
  | updateTabContent (tabId content : String)
  | updateTabFile (tabId : String) (filePath fileName : Option String)
  | updateTabModified (tabId : String) (isModified : Bool)
  | updateTabStats (tabId : String) (stats : JsonStats)
  | reorderTabs (fromIndex toIndex : Nat)
  | closeOtherTabs (tabId : String)
  | togglePinTab (tabId : String)
  | closeAllTabs (fresh : String)
  | reset (fresh : String)

def applySessionOp : SessionOp → TabsState → TabsState
  | .addTab fresh content fp fn => addTab fresh content fp fn
  | .removeTab fresh tabId => removeTab fresh tabId
  | .setActiveTab tabId => setActiveTab tabId
  | .updateTabContent tabId content => updateTabContent tabId content
  | .updateTabFile tabId fp fn => updateTabFile tabId fp fn
  | .updateTabModified tabId b => updateTabModified tabId b
  | .updateTabStats tabId stats => updateTabStats tabId stats
  | .reorderTabs i j => reorderTabs i j
  | .closeOtherTabs tabId => closeOtherTabs tabId
  | .togglePinTab tabId => togglePinTab tabId
  | .closeAllTabs fresh => closeAllTabs fresh
  | .reset fresh => reset fresh

/-- The operations quantified over by the non-empty invariant. -/
inductive RcOp where
  | removeTab (fresh tabId : String)
  | closeAllTabs (fresh : String)
  | reset (fresh : String)

def applyRcOp : RcOp → TabsState → TabsState
  | .removeTab fresh tabId => removeTab fresh tabId
  | .closeAllTabs fresh => closeAllTabs fresh
  | .reset fresh => reset fresh

def applyRcOps (ops : List RcOp) (s : TabsState) : TabsState :=
  ops.foldl (fun s op => applyRcOp op s) s

/-- Repeated `togglePinTab` calls. -/
def applyPinSeq (ids : List String) (s : TabsState) : TabsState :=
  ids.foldl (fun s tabId => togglePinTab tabId s) s

/-- Pinned tabs form a contiguous block at the front of the list. -/
def PinnedFront (tabs : List Tab) : Prop :=
  ∃ A B, tabs = A ++ B ∧ (∀ t ∈ A, t.isPinned = true) ∧ (∀ t ∈ B, t.isPinned = false)

/-- Executable check for `PinnedFront`. -/
def pinnedFrontB (tabs : List Tab) : Bool :=
  (tabs.dropWhile (fun t => t.isPinned)).all (fun t => !t.isPinned)

/-- `activeTabId` references a tab of the collection. -/
def ActiveValid (s : TabsState) : Prop :=
  ∃ t ∈ s.tabs, s.activeTabId = some t.id

/-! ### Basic list lemmas -/

theorem take_getD_drop {l : List α} {i : Nat} (h : i < l.length) (d : α) :
    l.take i ++ l.getD i d :: l.drop (i + 1) = l := by
  induction l generalizing i with
  | nil => simp at h
  | cons a l ih =>
    cases i with
    | zero => simp [List.getD]
    | succ i =>
      simp only [List.length_cons, Nat.succ_lt_succ_iff] at h
      simpa [List.getD] using ih h

theorem eraseIdx_eq_take_drop (l : List α) (i : Nat) :
    l.eraseIdx i = l.take i ++ l.drop (i + 1) := by
  induction l generalizing i with
  | nil => simp [List.eraseIdx]
  | cons a l ih =>
    cases i with
    | zero => simp [List.eraseIdx]
    | succ i => simp [List.eraseIdx, ih]

theorem spliceInsert_perm (l : List α) (i : Nat) (a : α) :
    (spliceInsert l i a).Perm (a :: l) := by
  unfold spliceInsert
  have h := @List.perm_middle α a (l.take i) (l.drop i)
  rwa [List.take_append_drop] at h

theorem spliceInsert_length (l : List α) (i : Nat) (a : α) :
    (spliceInsert l i a).length = l.length + 1 :=
  (spliceInsert_perm l i a).length_eq

theorem getD_cons_eraseIdx_perm {l : List α} {i : Nat} (h : i < l.length) (d : α) :
    (l.getD i d :: l.eraseIdx i).Perm l := by
  rw [eraseIdx_eq_take_drop]
  conv_rhs => rw [← take_getD_drop h d]
  exact List.perm_middle.symm

theorem get?_eq_getD {l : List α} {i : Nat} (h : i < l.length) (d : α) :
    l.get? i = some (l.getD i d) := by
  induction l generalizing i with
  | nil => simp at h
  | cons a l ih =>
    cases i with
    | zero => rfl
    | succ i =>
      simp only [List.length_cons, Nat.succ_lt_succ_iff] at h
      simpa [List.getD] using ih h

theorem get?_some_cons_eraseIdx_perm {l : List α} {i : Nat} {a : α}
    (h : l.get? i = some a) : (a :: l.eraseIdx i).Perm l := by
  have hi : i < l.length := by
    by_contra hlt
    rw [List.get?_eq_none.mpr (Nat.le_of_not_lt hlt)] at h
    exact Option.noConfusion h
  have hd : l.getD i a = a := by
    rw [get?_eq_getD hi a] at h
    exact (Option.some.injEq _ _ ▸ h : _)
  exact hd ▸ getD_cons_eraseIdx_perm hi a

theorem moveTab_perm (l : List α) (i j : Nat) : (moveTab l i j).Perm l := by
  unfold moveTab
  by_cases hij : i = j
  · simp [hij]
  · simp only [if_neg hij]
    cases h : l.get? i with
    | none => exact List.Perm.refl l
    | some removed =>
      exact ((spliceInsert_perm _ j removed).trans
        (get?_some_cons_eraseIdx_perm h))

theorem moveTab_length (l : List α) (i j : Nat) :
    (moveTab l i j).length = l.length :=
  (moveTab_perm l i j).length_eq

theorem mem_moveTab {l : List α} {i j : Nat} {t : α} :
    t ∈ moveTab l i j ↔ t ∈ l :=
  (moveTab_perm l i j).mem_iff

theorem moveTabJS_map_some {l : List α} {i : Nat} (j : Nat) (hi : i < l.length) :
    moveTabJS (l.map some) i j = (moveTab l i j).map some := by
  unfold moveTabJS moveTab
  by_cases hij : i = j
  · simp [hij]
  · simp only [if_neg hij]
    cases hx : l.get? i with
    | none =>
      rw [List.get?_eq_none] at hx
      omega
    | some x =>
      have hmx : (l.map some).get? i = some (some x) := by
        rw [List.get?_map, hx]
        rfl
      rw [hmx]
      simp only [Option.join]
      unfold spliceInsert
      rw [eraseIdx_eq_take_drop, eraseIdx_eq_take_drop]
      simp [List.map_take, List.map_drop]

theorem getD_mem {l : List α} {i : Nat} (h : i < l.length) (d : α) :
    l.getD i d ∈ l := by
  rw [List.getD_eq_getElem l d h]
  exact List.getElem_mem h

theorem jsFindIndex_lt_length {p : α → Bool} {l : List α} {i : Nat}
    (h : jsFindIndex p l = some i) : i < l.length := by
  induction l generalizing i with
  | nil => exact Option.noConfusion h
  | cons a l ih =>
    by_cases hp : p a
    · simp only [jsFindIndex, hp, if_true, Option.some.injEq] at h
      simp only [List.length_cons]
      omega
    · cases hrec : jsFindIndex p l with
      | none => simp [jsFindIndex, hp, hrec] at h
      | some i' =>
        simp [jsFindIndex, hp, hrec] at h
        have := ih hrec
        simp only [List.length_cons]
        omega

theorem jsFindIndex_getD {p : α → Bool} {l : List α} {i : Nat} (d : α)
    (h : jsFindIndex p l = some i) : p (l.getD i d) = true := by
  induction l generalizing i with
  | nil => exact Option.noConfusion h
  | cons a l ih =>
    by_cases hp : p a
    · simp only [jsFindIndex, hp, if_true, Option.some.injEq] at h
      subst h
      simpa [List.getD] using hp
    · cases hrec : jsFindIndex p l with
      | none => simp [jsFindIndex, hp, hrec] at h
      | some i' =>
        simp [jsFindIndex, hp, hrec] at h
        have hi : i = i' + 1 := by omega
        subst hi
        simpa [List.getD] using ih hrec

theorem jsFindIndex_min {p : α → Bool} {l : List α} {i : Nat} (d : α)
    (h : jsFindIndex p l = some i) : ∀ j, j < i → p (l.getD j d) = false := by
  induction l generalizing i with
  | nil => exact Option.noConfusion h
  | cons a l ih =>
    by_cases hp : p a
    · simp only [jsFindIndex, hp, if_true, Option.some.injEq] at h
      intro j hj
      omega
    · cases hrec : jsFindIndex p l with
      | none => simp [jsFindIndex, hp, hrec] at h
      | some i' =>
        simp [jsFindIndex, hp, hrec] at h
        have hi : i = i' + 1 := by omega
        subst hi
        intro j hj
        cases j with
        | zero => simpa [List.getD] using hp
        | succ j =>
          have := ih hrec j (by omega)
          simpa [List.getD] using this

/-! ### Concrete states used in witnesses and counterexamples -/

/-- A plain unsaved tab with a given id. -/
def exTab (id : String) : Tab := createNewTab id

/-- A pinned tab with a given id. -/
def exPinnedTab (id : String) : Tab := { createNewTab id with isPinned := true }

/-- A tab with a given id and file path. -/
def exPathTab (id : String) (p : String) : Tab := createNewTab id "" (some p)

def exDiff : DiffModeState :=
  { leftTabs := [exTab "L"], rightTabs := [exTab "R"],
    leftActiveTabId := some "L", rightActiveTabId := some "R" }

def exDiffStore : StoreState :=
  { session := { tabs := [exTab "A"], activeTabId := some "A" },
    diffMode := some exDiff }

/-! ### Claim C10 — re-entering diff mode replaces the diff session -/

/-- C10: calling `enterDiffMode` while a diff session is already active
replaces the existing `DiffModeState` with fresh clones of the current primary
tab list on both sides, with both active ids reset to the primary
`activeTabId`, and leaves the primary session unchanged.  The result does not
depend on the previous diff session, so all of its edits, added tabs and
removed tabs are discarded. -/
theorem enterDiffMode_replaces (st : StoreState) (d : DiffModeState)
    (h : st.diffMode = some d) :
    enterDiffMode st =
      { session := st.session,
        diffMode := some
          { leftTabs := st.session.tabs, rightTabs := st.session.tabs,
            leftActiveTabId := st.session.activeTabId,
            rightActiveTabId := st.session.activeTabId } } := by
  cases st
  rfl

theorem enterDiffMode_replaces_witness :
    enterDiffMode exDiffStore =
      { session := exDiffStore.session,
        diffMode := some
          { leftTabs := exDiffStore.session.tabs,
            rightTabs := exDiffStore.session.tabs,
            leftActiveTabId := exDiffStore.session.activeTabId,
            rightActiveTabId := exDiffStore.session.activeTabId } } :=
  enterDiffMode_replaces exDiffStore exDiff rfl

/-! ### Claim C5 — closeAllTabs vs reset -/

/-- C5 (amended): `closeAllTabs()` and `reset()` both replace the entire tab
collection with a single fresh empty default tab and make it active, and the
two operations are fully equivalent — but `reset()` does NOT clear an
in-flight diff session: the diff-mode store is left untouched by both. -/
theorem closeAllTabs_reset_equiv (fresh : String) (st : StoreState) :
    closeAllTabsStore fresh st = resetStore fresh st ∧
    (resetStore fresh st).session =
      { tabs := [createDefaultTab fresh],
        activeTabId := some (createDefaultTab fresh).id } ∧
    (resetStore fresh st).diffMode = st.diffMode := by
  refine ⟨rfl, rfl, rfl⟩

/-- C5 counterexample: starting from a store with an in-flight diff session,
`reset()` leaves the `DiffModeState` present — it does not become absent. -/
theorem reset_keeps_diff_session :
    (resetStore "r1" exDiffStore).diffMode = some exDiff ∧
    (resetStore "r1" exDiffStore).diffMode ≠ none := by
  exact ⟨rfl, by decide⟩

/-! ### Claim C6 — non-empty invariant -/

theorem emptyGuard_ne_nil (l : List Tab) (x : Tab) :
    (if l.isEmpty then [x] else l) ≠ [] := by
  cases l with
  | nil => simp
  | cons a l => simp [List.isEmpty]

theorem removeTab_tabs_ne_nil (fresh tabId : String) (s : TabsState)
    (h : s.tabs ≠ []) : (removeTab fresh tabId s).tabs ≠ [] := by
  unfold removeTab
  cases hfi : jsFindIndex (fun t => t.id = tabId) s.tabs with
  | none => exact h
  | some tabIndex => exact emptyGuard_ne_nil _ _

theorem applyRcOp_tabs_ne_nil (op : RcOp) (s : TabsState)
    (h : s.tabs ≠ []) : (applyRcOp op s).tabs ≠ [] := by
  cases op with
  | removeTab fresh tabId => exact removeTab_tabs_ne_nil fresh tabId s h
  | closeAllTabs fresh => simp [applyRcOp, closeAllTabs]
  | reset fresh => simp [applyRcOp, reset]

/-- C6: for every state satisfying the ≥ 1 invariant, any sequence of
`removeTab` / `closeAllTabs` / `reset` calls leaves at least one tab; and
removing the single remaining tab replaces it with a fresh empty tab instead
of leaving the collection empty. -/
theorem tabs_never_empty (s : TabsState) (ops : List RcOp) (t : Tab)
    (fresh : String) (h : s.tabs ≠ []) :
    (applyRcOps ops s).tabs ≠ [] ∧
    (s.tabs = [t] → (removeTab fresh t.id s).tabs = [createNewTab fresh]) := by
  constructor
  · induction ops generalizing s with
    | nil => exact h
    | cons op ops ih =>
      exact ih (applyRcOp op s) (applyRcOp_tabs_ne_nil op s h)
  · intro hsingle
    unfold removeTab
    rw [hsingle]
    simp [jsFindIndex]

theorem tabs_never_empty_witness :
    (applyRcOps [RcOp.removeTab "f1" "a", RcOp.closeAllTabs "f2",
                 RcOp.removeTab "f3" "f2"]
      { tabs := [exTab "a"], activeTabId := some "a" }).tabs ≠ [] ∧
    (({ tabs := [exTab "a"], activeTabId := some "a" } : TabsState).tabs = [exTab "a"] →
      (removeTab "n" (exTab "a").id
        { tabs := [exTab "a"], activeTabId := some "a" }).tabs = [createNewTab "n"]) :=
  tabs_never_empty { tabs := [exTab "a"], activeTabId := some "a" }
    [RcOp.removeTab "f1" "a", RcOp.closeAllTabs "f2", RcOp.removeTab "f3" "f2"]
    (exTab "a") "n" (by decide)

/-! ### Claim C1 — capacity invariant -/

/-- A legal full session: ten tabs, all within the cap. -/
def tenTabs : List Tab :=
  [exTab "t0", exTab "t1", exTab "t2", exTab "t3", exTab "t4",
   exTab "t5", exTab "t6", exTab "t7", exTab "t8", exTab "t9"]

def st10 : StoreState :=
  { session := { tabs := tenTabs, activeTabId := some "t0" }, diffMode := none }

/-- C1 (amended): every single-track Session Store operation preserves the
`≤ MAX_TABS` capacity invariant — with `reorderTabs` restricted to an
in-range `fromIndex`, since for an out-of-range one the source's splice
inserts an `undefined` hole and the array grows past the cap (the faithful
behavior captured by `moveTabJS`) — and `addTab` on a full session is an
exact no-op.  The last conjunct states the reorder bound directly on the
faithful splice embedding.  (The original claim also fails for
`exitDiffMode`: its merge installs the merged list without any capacity
check.) -/
theorem capacity_invariant (op : SessionOp) (s : TabsState)
    (fresh content : String) (fp fn : Option String)
    (h : s.tabs.length ≤ MAX_TABS)
    (hop : ∀ i j, op = SessionOp.reorderTabs i j → i < s.tabs.length) :
    (applySessionOp op s).tabs.length ≤ MAX_TABS ∧
    (MAX_TABS ≤ s.tabs.length → addTab fresh content fp fn s = s) ∧
    (∀ i j, i < s.tabs.length →
      (moveTabJS (s.tabs.map some) i j).length ≤ MAX_TABS) := by
  refine ⟨?_, ?_, ?_⟩
  · cases op with
    | addTab fr c p n =>
      simp only [applySessionOp]
      unfold addTab
      split
      · exact h
      · next hge =>
        simp only [List.length_append, List.length_cons, List.length_nil]
        omega
    | removeTab fr tabId =>
      simp only [applySessionOp]
      unfold removeTab
      cases hfi : jsFindIndex (fun t => t.id = tabId) s.tabs with
      | none => exact h
      | some tabIndex =>
        show (if (s.tabs.filter (fun t => t.id ≠ tabId)).isEmpty
              then [createNewTab fr]
              else s.tabs.filter (fun t => t.id ≠ tabId)).length ≤ MAX_TABS
        split
        · simp [MAX_TABS]
        · exact le_trans (s.tabs.length_filter_le _) h
    | setActiveTab tabId =>
      simp only [applySessionOp]
      unfold setActiveTab
      split
      · exact h
      · exact h
    | updateTabContent tabId c =>
      simpa [applySessionOp, updateTabContent] using h
    | updateTabFile tabId p n =>
      simpa [applySessionOp, updateTabFile] using h
    | updateTabModified tabId b =>
      simpa [applySessionOp, updateTabModified] using h
    | updateTabStats tabId st =>
      simpa [applySessionOp, updateTabStats] using h
    | reorderTabs i j =>
      have hi : i < s.tabs.length := hop i j rfl
      simp only [applySessionOp]
      show (moveTab s.tabs i j).length ≤ MAX_TABS
      have hfaith : (moveTabJS (s.tabs.map some) i j).length
          = (moveTab s.tabs i j).length := by
        rw [moveTabJS_map_some j hi, List.length_map]
      rw [← hfaith, moveTabJS_map_some j hi, List.length_map, moveTab_length]
      exact h
    | closeOtherTabs tabId =>
      simp only [applySessionOp]
      unfold closeOtherTabs
      cases hf : s.tabs.find? (fun t => t.id = tabId) with
      | none => exact h
      | some t => exact le_trans (s.tabs.length_filter_le _) h
    | togglePinTab tabId =>
      simp only [applySessionOp]
      unfold togglePinTab
      cases hfi : jsFindIndex (fun t => t.id = tabId) s.tabs with
      | none => exact h
      | some tabIndex =>
        simp only
        split
        · rw [moveTab_length, List.length_set]
          exact h
        · rw [moveTab_length, List.length_set]
          exact h
    | closeAllTabs fr => simp [applySessionOp, closeAllTabs, MAX_TABS]
    | reset fr => simp [applySessionOp, reset, MAX_TABS]
  · intro hfull
    unfold addTab
    rw [if_pos hfull]
  · intro i j hi
    rw [moveTabJS_map_some j hi, List.length_map, moveTab_length]
    exact h

theorem capacity_invariant_witness :
    (applySessionOp (SessionOp.reorderTabs 0 1) st10.session).tabs.length ≤ MAX_TABS ∧
    (MAX_TABS ≤ st10.session.tabs.length →
      addTab "n" "" none none st10.session = st10.session) ∧
    (∀ i j, i < st10.session.tabs.length →
      (moveTabJS (st10.session.tabs.map some) i j).length ≤ MAX_TABS) :=
  capacity_invariant (SessionOp.reorderTabs 0 1) st10.session
    "n" "" none none (by decide)
    (fun i j hq => by
      injection hq with h1 h2
      subst h1
      decide)

/-- C1 counterexample: from a legal full 10-tab session, entering diff mode,
replacing one right-side tab by a fresh one (allowed by the per-side cap) and
exiting diff mode installs an 11-tab primary session — `exitDiffMode`'s merge
has no capacity check, so the 10-tab bound is not an invariant of every
operation. -/
theorem exitDiffMode_breaks_capacity :
    (exitDiffMode "f2" (addDiffRightTab "n1" "" none none
        (removeDiffRightTab "f1" "t9" (enterDiffMode st10)))).session.tabs.length = 11 ∧
    MAX_TABS < 11 := by
  constructor
  · decide
  · decide

/-! ### Claim C7 — active-id validity -/

theorem set_decomp {l : List α} {i : Nat} (h : i < l.length) (u : α) :
    l.set i u = l.take i ++ u :: l.drop (i + 1) := by
  induction l generalizing i with
  | nil => simp at h
  | cons a l ih =>
    cases i with
    | zero => simp
    | succ i =>
      simp only [List.length_cons, Nat.succ_lt_succ_iff] at h
      simp [List.set, ih h]

theorem length_filter_ge_findIdx {l : List Tab} {tabId : String} {i : Nat}
    (h : jsFindIndex (fun t => t.id = tabId) l = some i) :
    i ≤ (l.filter (fun t => t.id ≠ tabId)).length := by
  induction l generalizing i with
  | nil => exact Option.noConfusion h
  | cons a l ih =>
    by_cases hp : a.id = tabId
    · simp [jsFindIndex, hp] at h
      omega
    · cases hrec : jsFindIndex (fun t => t.id = tabId) l with
      | none => simp [jsFindIndex, hp, hrec] at h
      | some i' =>
        simp [jsFindIndex, hp, hrec] at h
        have := ih hrec
        simp only [List.filter_cons]
        have hkeep : (decide (a.id ≠ tabId)) = true := by simp [hp]
        rw [hkeep]
        simp only [if_true, List.length_cons]
        omega

theorem exists_mem_set_id {tabs : List Tab} {i : Nat} {u : Tab}
    (hi : i < tabs.length) (hu : u.id = (tabs.getD i dtab).id)
    {a : Option String} (h : ∃ t ∈ tabs, a = some t.id) :
    ∃ t ∈ tabs.set i u, a = some t.id := by
  obtain ⟨t, ht, ha⟩ := h
  rw [set_decomp hi u]
  rw [← take_getD_drop hi dtab] at ht
  rcases List.mem_append.mp ht with h1 | h2
  · exact ⟨t, List.mem_append.mpr (Or.inl h1), ha⟩
  · rcases List.mem_cons.mp h2 with heq | h3
    · refine ⟨u, List.mem_append.mpr (Or.inr (List.mem_cons_self _ _)), ?_⟩
      rw [hu, ← heq]
      exact ha
    · exact ⟨t, List.mem_append.mpr (Or.inr (List.mem_cons_of_mem _ h3)), ha⟩

theorem activeValid_of_map (f : Tab → Tab) (hf : ∀ t, (f t).id = t.id)
    {tabs : List Tab} {a : Option String} (h : ∃ t ∈ tabs, a = some t.id) :
    ∃ t ∈ tabs.map f, a = some t.id := by
  obtain ⟨t, ht, ha⟩ := h
  exact ⟨f t, List.mem_map_of_mem f ht, by rw [hf t]; exact ha⟩

/-- C7: every Session Store operation applied to a state whose `activeTabId`
references a tab of the collection yields a state whose `activeTabId` again
references a tab of the (new) collection — when the active tab is removed the
deterministic successor `newTabs[max(0, removedIndex-1)]` is chosen — and
`setActiveTab` with an absent id leaves the state unchanged. -/
theorem active_id_validity (op : SessionOp) (s : TabsState) (tabId : String)
    (h : ActiveValid s) :
    ActiveValid (applySessionOp op s) ∧
    (s.tabs.find? (fun t => t.id = tabId) = none → setActiveTab tabId s = s) := by
  unfold ActiveValid at h ⊢
  constructor
  · cases op with
    | addTab fr c p n =>
      simp only [applySessionOp]
      unfold addTab
      split
      · exact h
      · exact ⟨createNewTab fr c p n, by simp, rfl⟩
    | removeTab fr tid =>
      simp only [applySessionOp]
      unfold removeTab
      cases hfi : jsFindIndex (fun t => t.id = tid) s.tabs with
      | none => exact h
      | some tabIndex =>
        simp only
        have hle := length_filter_ge_findIdx hfi
        by_cases hact : s.activeTabId = some tid
        · rw [if_pos hact]
          cases he : (s.tabs.filter (fun t => t.id ≠ tid)).isEmpty with
          | true =>
            have h0 : (s.tabs.filter (fun t => t.id ≠ tid)).length = 0 := by
              simpa [List.isEmpty_iff, List.length_eq_zero] using he
            simp only [if_pos he]
            have hlt : tabIndex - 1 < ([createNewTab fr] : List Tab).length := by
              simp only [List.length_singleton]
              omega
            exact ⟨_, getD_mem hlt dtab, rfl⟩
          | false =>
            have h0 : 0 < (s.tabs.filter (fun t => t.id ≠ tid)).length := by
              cases hq : s.tabs.filter (fun t => t.id ≠ tid) with
              | nil => rw [hq] at he; simp [List.isEmpty] at he
              | cons x xs => simp
            simp only [he, Bool.false_eq_true, if_false]
            have hlt : tabIndex - 1 < (s.tabs.filter (fun t => t.id ≠ tid)).length := by
              omega
            exact ⟨_, getD_mem hlt dtab, rfl⟩
        · rw [if_neg hact]
          obtain ⟨t0, ht0, ha0⟩ := h
          have hne : t0.id ≠ tid := by
            intro hq
            exact hact (by rw [ha0, hq])
          have hmemf : t0 ∈ s.tabs.filter (fun t => t.id ≠ tid) := by
            simp only [List.mem_filter]
            exact ⟨ht0, by simp [hne]⟩
          cases he : (s.tabs.filter (fun t => t.id ≠ tid)).isEmpty with
          | true =>
            exfalso
            have : s.tabs.filter (fun t => t.id ≠ tid) = [] := by
              simpa [List.isEmpty_iff] using he
            rw [this] at hmemf
            exact absurd hmemf (List.not_mem_nil t0)
          | false =>
            simp only [he, Bool.false_eq_true, if_false]
            exact ⟨t0, hmemf, ha0⟩
    | setActiveTab tid =>
      simp only [applySessionOp]
      unfold setActiveTab
      cases hf : s.tabs.find? (fun t => t.id = tid) with
      | none => simpa using h
      | some tf =>
        simp only [Option.isNone_some, Bool.false_eq_true, if_false]
        have hm := List.mem_of_find?_eq_some hf
        have hp : tf.id = tid := by
          have := List.find?_some hf
          simpa using this
        exact ⟨tf, hm, by rw [hp]⟩
    | updateTabContent tid c =>
      simp only [applySessionOp]
      unfold updateTabContent
      refine activeValid_of_map _ (fun t => ?_) h
      by_cases hq : t.id = tid <;> simp [hq]
    | updateTabFile tid p n =>
      simp only [applySessionOp]
      unfold updateTabFile
      refine activeValid_of_map _ (fun t => ?_) h
      by_cases hq : t.id = tid <;> simp [hq]
    | updateTabModified tid b =>
      simp only [applySessionOp]
      unfold updateTabModified
      refine activeValid_of_map _ (fun t => ?_) h
      by_cases hq : t.id = tid <;> simp [hq]
    | updateTabStats tid stq =>
      simp only [applySessionOp]
      unfold updateTabStats
      refine activeValid_of_map _ (fun t => ?_) h
      by_cases hq : t.id = tid <;> simp [hq]
    | reorderTabs i j =>
      simp only [applySessionOp]
      unfold reorderTabs
      obtain ⟨t0, ht0, ha0⟩ := h
      exact ⟨t0, mem_moveTab.mpr ht0, ha0⟩
    | closeOtherTabs tid =>
      simp only [applySessionOp]
      unfold closeOtherTabs
      cases hf : s.tabs.find? (fun t => t.id = tid) with
      | none => exact h
      | some tfound =>
        simp only
        have hmemk : tfound ∈ s.tabs.filter (fun t => t.id = tid || t.isPinned) := by
          simp only [List.mem_filter]
          refine ⟨List.mem_of_find?_eq_some hf, ?_⟩
          have := List.find?_some hf
          simp only [decide_eq_true_eq] at this
          simp [this]
        have hpos : 0 < (s.tabs.filter (fun t => t.id = tid || t.isPinned)).length :=
          List.length_pos.mpr (List.ne_nil_of_mem hmemk)
        cases hk : (s.tabs.filter (fun t => t.id = tid || t.isPinned)).find?
            (fun t => t.id = tid) with
        | none => exact ⟨_, getD_mem hpos dtab, rfl⟩
        | some tk =>
          show ∃ t ∈ s.tabs.filter (fun t => t.id = tid || t.isPinned),
              some (if tk.id = "" then
                  ((s.tabs.filter (fun t => t.id = tid || t.isPinned)).getD 0 dtab).id
                else tk.id) = some t.id
          by_cases hz : tk.id = ""
          · rw [if_pos hz]
            exact ⟨_, getD_mem hpos dtab, rfl⟩
          · rw [if_neg hz]
            exact ⟨tk, List.mem_of_find?_eq_some hk, rfl⟩
    | togglePinTab tid =>
      simp only [applySessionOp]
      unfold togglePinTab
      cases hfi : jsFindIndex (fun t => t.id = tid) s.tabs with
      | none => exact h
      | some m =>
        have hm := jsFindIndex_lt_length hfi
        have hset := exists_mem_set_id hm
          (show ({ s.tabs.getD m dtab with
                    isPinned := !(s.tabs.getD m dtab).isPinned }).id
              = (s.tabs.getD m dtab).id from rfl) h
        simp only
        split
        · obtain ⟨t0, ht0, ha0⟩ := hset
          exact ⟨t0, mem_moveTab.mpr ht0, ha0⟩
        · obtain ⟨t0, ht0, ha0⟩ := hset
          exact ⟨t0, mem_moveTab.mpr ht0, ha0⟩
    | closeAllTabs fr =>
      exact ⟨createDefaultTab fr, by simp [applySessionOp, closeAllTabs], rfl⟩
    | reset fr =>
      exact ⟨createDefaultTab fr, by simp [applySessionOp, reset], rfl⟩
  · intro hn
    unfold setActiveTab
    rw [hn]
    simp

theorem active_id_validity_witness :
    (∃ t ∈ (applySessionOp (SessionOp.removeTab "f" "C")
        { tabs := [exTab "A", exTab "B", exTab "C", exTab "D"],
          activeTabId := some "C" }).tabs,
      (applySessionOp (SessionOp.removeTab "f" "C")
        { tabs := [exTab "A", exTab "B", exTab "C", exTab "D"],
          activeTabId := some "C" }).activeTabId = some t.id) ∧
    (({ tabs := [exTab "A", exTab "B", exTab "C", exTab "D"],
        activeTabId := some "C" } : TabsState).tabs.find?
          (fun t => t.id = "Z") = none →
      setActiveTab "Z"
        { tabs := [exTab "A", exTab "B", exTab "C", exTab "D"],
          activeTabId := some "C" } =
        { tabs := [exTab "A", exTab "B", exTab "C", exTab "D"],
          activeTabId := some "C" }) :=
  active_id_validity (SessionOp.removeTab "f" "C")
    { tabs := [exTab "A", exTab "B", exTab "C", exTab "D"],
      activeTabId := some "C" } "Z"
    ⟨exTab "C", by decide, by decide⟩

/-! ### Claim C8 — removal successor rule -/

theorem jsFindIndex_nodup {l : List Tab} (hnd : (l.map (fun t => t.id)).Nodup)
    {i : Nat} (hi : i < l.length) :
    jsFindIndex (fun t => t.id = (l.getD i dtab).id) l = some i := by
  induction l generalizing i with
  | nil => simp at hi
  | cons a l ih =>
    cases i with
    | zero => simp [jsFindIndex, List.getD]
    | succ i =>
      simp only [List.length_cons, Nat.succ_lt_succ_iff] at hi
      simp only [List.map_cons, List.nodup_cons] at hnd
      have hmem : ((a :: l).getD (i + 1) dtab).id ∈ l.map (fun t => t.id) := by
        simp only [List.getD_cons_succ]
        exact List.mem_map_of_mem _ (getD_mem hi dtab)
      have hne : ¬(a.id = ((a :: l).getD (i + 1) dtab).id) := by
        intro hq
        rw [hq] at hnd
        exact hnd.1 hmem
      simp only [jsFindIndex, hne, decide_False, if_false]
      have := ih hnd.2 (i := i)
      simp only [List.getD_cons_succ]
      rw [this hi]
      rfl

theorem filter_eq_eraseIdx {l : List Tab} (hnd : (l.map (fun t => t.id)).Nodup)
    {i : Nat} (hi : i < l.length) :
    l.filter (fun t => t.id ≠ (l.getD i dtab).id) = l.eraseIdx i := by
  induction l generalizing i with
  | nil => simp at hi
  | cons a l ih =>
    simp only [List.map_cons, List.nodup_cons] at hnd
    cases i with
    | zero =>
      simp only [List.getD_cons_zero, List.eraseIdx_cons_zero, List.filter_cons]
      have hz : (decide (a.id ≠ a.id)) = false := by simp
      rw [hz]
      simp only [Bool.false_eq_true, if_false]
      rw [List.filter_eq_self]
      intro t ht
      simp only [decide_eq_true_eq]
      intro hq
      exact hnd.1 (hq ▸ List.mem_map_of_mem _ ht)
    | succ i =>
      simp only [List.length_cons, Nat.succ_lt_succ_iff] at hi
      simp only [List.getD_cons_succ, List.eraseIdx_cons_succ, List.filter_cons]
      have hne : (decide (a.id ≠ (l.getD i dtab).id)) = true := by
        simp only [decide_eq_true_eq]
        intro hq
        exact hnd.1 (hq ▸ List.mem_map_of_mem _ (getD_mem hi dtab))
      rw [hne]
      simp only [if_true]
      rw [ih hnd.2 hi]

/-- C8: removing the active tab at index `i` from a duplicate-free collection
with more than one tab removes exactly that tab and makes the tab now
occupying index `max(0, i-1)` of the resulting collection active — the
previous tab, or the new first tab when the removed one was first. -/
theorem removal_successor_rule (s : TabsState) (i : Nat) (fresh : String)
    (hi : i < s.tabs.length)
    (hnd : (s.tabs.map (fun t => t.id)).Nodup)
    (hact : s.activeTabId = some (s.tabs.getD i dtab).id)
    (hlen : 1 < s.tabs.length) :
    removeTab fresh (s.tabs.getD i dtab).id s =
      { tabs := s.tabs.eraseIdx i,
        activeTabId := some ((s.tabs.eraseIdx i).getD (i - 1) dtab).id } := by
  unfold removeTab
  rw [jsFindIndex_nodup hnd hi]
  simp only
  rw [filter_eq_eraseIdx hnd hi]
  have hl := List.length_eraseIdx_add_one hi
  have hne : (s.tabs.eraseIdx i).isEmpty = false := by
    cases hq : s.tabs.eraseIdx i with
    | nil => rw [hq] at hl; simp at hl; omega
    | cons x xs => simp [List.isEmpty]
  rw [hne]
  simp only [Bool.false_eq_true, if_false]
  rw [if_pos hact]

def exRemState : TabsState :=
  { tabs := [exTab "A", exTab "B", exTab "C", exTab "D"], activeTabId := some "C" }

theorem removal_successor_rule_witness :
    removeTab "f" "C" exRemState =
      { tabs := [exTab "A", exTab "B", exTab "D"], activeTabId := some "B" } := by
  have h := removal_successor_rule exRemState 2 "f" (by decide) (by decide)
    (by decide) (by decide)
  exact h.trans (by decide)

/-! ### Claim C9 — reorder is a permutation (for in-range indices) -/

theorem getD_append_length (X : List α) (a : α) (Y : List α) (d : α) :
    ((X ++ a :: Y).getD X.length d) = a := by
  induction X with
  | nil => simp [List.getD]
  | cons x X ih => simpa [List.getD] using ih

theorem eraseIdx_append_length (X : List α) (a : α) (Y : List α) :
    (X ++ a :: Y).eraseIdx X.length = X ++ Y := by
  induction X with
  | nil => simp [List.eraseIdx]
  | cons x X ih => simpa [List.eraseIdx] using ih

theorem spliceInsert_getD_self {l : List α} {j : Nat} (hj : j ≤ l.length)
    (a d : α) : (spliceInsert l j a).getD j d = a := by
  unfold spliceInsert
  have hlen : (l.take j).length = j := by
    simp [List.length_take]
    omega
  have h := getD_append_length (l.take j) a (l.drop j) d
  rw [hlen] at h
  exact h

theorem spliceInsert_eraseIdx_self {l : List α} {j : Nat} (hj : j ≤ l.length)
    (a : α) : (spliceInsert l j a).eraseIdx j = l := by
  unfold spliceInsert
  have hlen : (l.take j).length = j := by
    simp [List.length_take]
    omega
  have h := eraseIdx_append_length (l.take j) a (l.drop j)
  rw [hlen, List.take_append_drop] at h
  exact h

/-- C9 (amended): for in-range indices, `reorderTabs(i, j)` produces exactly
the splice-move permutation — same length, a permutation of the input with the
same id-set, the moved element sitting at index `j`, and the rest in their
original relative order (`eraseIdx j` of the result is `eraseIdx i` of the
input) — with `activeTabId` untouched; and the underlying JS `moveTab` on the
hole-free array agrees with the embedded `moveTab`.  (For an out-of-range
`fromIndex` the original claim fails: see `moveTab_oob_inserts_hole`.) -/
theorem reorder_is_permutation (s : TabsState) (i j : Nat)
    (hi : i < s.tabs.length) (hj : j < s.tabs.length) :
    (reorderTabs i j s).tabs.length = s.tabs.length ∧
    ((reorderTabs i j s).tabs).Perm s.tabs ∧
    (∀ x, x ∈ (reorderTabs i j s).tabs.map (fun t => t.id) ↔
          x ∈ s.tabs.map (fun t => t.id)) ∧
    (reorderTabs i j s).tabs.getD j dtab = s.tabs.getD i dtab ∧
    ((reorderTabs i j s).tabs).eraseIdx j = s.tabs.eraseIdx i ∧
    (reorderTabs i j s).activeTabId = s.activeTabId ∧
    moveTabJS (s.tabs.map some) i j = ((reorderTabs i j s).tabs).map some := by
  have hperm : ((reorderTabs i j s).tabs).Perm s.tabs := moveTab_perm s.tabs i j
  refine ⟨hperm.length_eq, hperm, ?_, ?_, ?_, rfl, moveTabJS_map_some j hi⟩
  · intro x
    exact (hperm.map (fun t => t.id)).mem_iff
  · show (moveTab s.tabs i j).getD j dtab = s.tabs.getD i dtab
    unfold moveTab
    by_cases hij : i = j
    · simp [hij]
    · simp only [if_neg hij]
      rw [get?_eq_getD hi dtab]
      have hle : j ≤ (s.tabs.eraseIdx i).length := by
        have := List.length_eraseIdx_add_one hi
        omega
      exact spliceInsert_getD_self hle _ _
  · show (moveTab s.tabs i j).eraseIdx j = s.tabs.eraseIdx i
    unfold moveTab
    by_cases hij : i = j
    · simp [hij]
    · simp only [if_neg hij]
      rw [get?_eq_getD hi dtab]
      have hle : j ≤ (s.tabs.eraseIdx i).length := by
        have := List.length_eraseIdx_add_one hi
        omega
      exact spliceInsert_eraseIdx_self hle _

theorem reorder_is_permutation_witness :
    (reorderTabs 0 2 exRemState).tabs.length = exRemState.tabs.length ∧
    ((reorderTabs 0 2 exRemState).tabs).Perm exRemState.tabs ∧
    (∀ x, x ∈ (reorderTabs 0 2 exRemState).tabs.map (fun t => t.id) ↔
          x ∈ exRemState.tabs.map (fun t => t.id)) ∧
    (reorderTabs 0 2 exRemState).tabs.getD 2 dtab = exRemState.tabs.getD 0 dtab ∧
    ((reorderTabs 0 2 exRemState).tabs).eraseIdx 2 = exRemState.tabs.eraseIdx 0 ∧
    (reorderTabs 0 2 exRemState).activeTabId = exRemState.activeTabId ∧
    moveTabJS (exRemState.tabs.map some) 0 2 =
      ((reorderTabs 0 2 exRemState).tabs).map some :=
  reorder_is_permutation exRemState 0 2 (by decide) (by decide)

/-- C9 counterexample: with an out-of-range `fromIndex`, the source's
`moveTab` (JS `splice` semantics, `moveTabJS` here) does not permute: on a
2-element array, `moveTab(tabs, 2, 0)` inserts an `undefined` hole and returns
a 3-element array, so length and content are not preserved. -/
theorem moveTab_oob_inserts_hole :
    moveTabJS [some (exTab "A"), some (exTab "B")] 2 0
      = [none, some (exTab "A"), some (exTab "B")] ∧
    (moveTabJS [some (exTab "A"), some (exTab "B")] 2 0).length ≠
      ([some (exTab "A"), some (exTab "B")] : List (Option Tab)).length := by
  constructor
  · decide
  · decide

/-! ### Claim C4 — persistence sanitization round trip -/

theorem save_load_tab (t : Tab) :
    loadTabSanitize (saveTabSanitize t) =
      { t with filePath := none, fileName := none, isModified := false,
               content := if t.content.length ≤ 100000 then t.content else "" } := by
  unfold loadTabSanitize saveTabSanitize
  by_cases hc : t.content.length ≤ 100000
  · rw [if_neg (by omega : ¬ t.content.length > 100000), if_pos hc]
  · rw [if_pos (by omega : t.content.length > 100000), if_neg hc]

/-- C4 (amended): saving then loading a non-empty session yields, tab for tab,
`filePath = null`, `fileName = null`, the same `id`, `content` unchanged when
its length is at most 100,000 characters and `""` otherwise — but `isModified`
is always reset to `false` by `loadState`'s sanitization, so the modified flag
does NOT survive the round trip. -/
theorem persistence_round_trip (s : TabsState) (fresh : String)
    (h : s.tabs ≠ []) :
    (loadState fresh (saveState s)).tabs =
      s.tabs.map (fun t =>
        { t with filePath := none, fileName := none, isModified := false,
                 content := if t.content.length ≤ 100000 then t.content else "" }) := by
  unfold loadState saveState
  simp only [List.map_map]
  have hne : (s.tabs.map (fun t => loadTabSanitize (saveTabSanitize t))).isEmpty = false := by
    cases hq : s.tabs with
    | nil => exact absurd hq h
    | cons x xs => simp [List.isEmpty]
  have hcomp : s.tabs.map (loadTabSanitize ∘ saveTabSanitize) =
      s.tabs.map (fun t =>
        { t with filePath := none, fileName := none, isModified := false,
                 content := if t.content.length ≤ 100000 then t.content else "" }) := by
    refine List.map_congr_left (fun t _ => ?_)
    exact save_load_tab t
  show (if (s.tabs.map (loadTabSanitize ∘ saveTabSanitize)).isEmpty
        then [createDefaultTab fresh]
        else s.tabs.map (loadTabSanitize ∘ saveTabSanitize)) = _
  rw [show s.tabs.map (loadTabSanitize ∘ saveTabSanitize) =
        s.tabs.map (fun t => loadTabSanitize (saveTabSanitize t)) from rfl] at hcomp ⊢
  rw [hne]
  simp only [Bool.false_eq_true, if_false]
  exact hcomp

def exModTab : Tab :=
  { createNewTab "X" "hello" (some "/tmp/x.json") (some "x.json") with isModified := true }

def exModState : TabsState := { tabs := [exModTab], activeTabId := some "X" }

theorem persistence_round_trip_witness :
    (loadState "f" (saveState exModState)).tabs =
      exModState.tabs.map (fun t =>
        { t with filePath := none, fileName := none, isModified := false,
                 content := if t.content.length ≤ 100000 then t.content else "" }) :=
  persistence_round_trip exModState "f" (by decide)

/-- C4 counterexample: a modified tab (`isModified = true`) comes back from
the save/load round trip with `isModified = false` — `loadState` resets the
flag — so `isModified` is not preserved as the claim states. -/
theorem load_drops_isModified :
    ((loadState "f" (saveState exModState)).tabs.getD 0 dtab).isModified = false ∧
    (exModState.tabs.getD 0 dtab).isModified = true := by
  constructor
  · decide
  · decide

/-! ### Claim C2 — exitDiffMode merge characterization -/

/-- The merge filter of the claim read literally: a right tab is kept iff its
id is not among the left ids and its NON-NULL `filePath` is not among the left
non-null `filePath`s. -/
def specKeepNonNull (leftTabs : List Tab) (r : Tab) : Bool :=
  !(leftTabs.any (fun t => t.id = r.id)) &&
  !(r.filePath.isSome &&
    leftTabs.any (fun t => t.filePath.isSome && t.filePath = r.filePath))

/-- The amended merge filter: "non-null" tightened to "non-empty" (JS
truthiness), which is what the source tests. -/
def specKeepTruthy (leftTabs : List Tab) (r : Tab) : Bool :=
  !(leftTabs.any (fun t => t.id = r.id)) &&
  !(pathTruthy r.filePath &&
    leftTabs.any (fun t => pathTruthy t.filePath && t.filePath = r.filePath))

theorem mergeTabs_eq (L R : List Tab) :
    mergeTabs L R = L ++ R.filter (specKeepTruthy L) := by
  have key : ∀ (R acc : List Tab),
      R.foldl (fun mergedTabs rightTab =>
        if rightTab.id ∈ L.map (fun t => t.id) then mergedTabs
        else if pathTruthy rightTab.filePath
                && (rightTab.filePath.getD "") ∈
                  ((L.filter (fun t => pathTruthy t.filePath)).filterMap
                    (fun t => t.filePath)) then mergedTabs
        else mergedTabs ++ [rightTab]) acc
      = acc ++ R.filter (specKeepTruthy L) := by
    intro R
    induction R with
    | nil => intro acc; simp
    | cons r R ih =>
      intro acc
      simp only [List.foldl_cons, List.filter_cons]
      by_cases h1 : r.id ∈ L.map (fun t => t.id)
      · rw [if_pos h1, ih]
        have hk : specKeepTruthy L r = false := by
          unfold specKeepTruthy
          simp only [List.mem_map] at h1
          obtain ⟨t, ht, he⟩ := h1
          have hany : L.any (fun t => t.id = r.id) = true := by
            simp only [List.any_eq_true, decide_eq_true_eq]
            exact ⟨t, ht, he⟩
          simp [hany]
        rw [hk]
        simp
      · rw [if_neg h1]
        by_cases h2 : (pathTruthy r.filePath
            && decide ((r.filePath.getD "") ∈
              ((L.filter (fun t => pathTruthy t.filePath)).filterMap
                (fun t => t.filePath)))) = true
        · rw [if_pos h2, ih]
          have hk : specKeepTruthy L r = false := by
            unfold specKeepTruthy
            rw [Bool.and_eq_true] at h2
            obtain ⟨htr, hmem⟩ := h2
            rw [decide_eq_true_eq, List.mem_filterMap] at hmem
            obtain ⟨t, ht, hpath⟩ := hmem
            rw [List.mem_filter] at ht
            have hany : L.any (fun t => pathTruthy t.filePath
                && t.filePath = r.filePath) = true := by
              simp only [List.any_eq_true]
              refine ⟨t, ht.1, ?_⟩
              rw [Bool.and_eq_true, decide_eq_true_eq]
              refine ⟨ht.2, ?_⟩
              rw [hpath]
              cases hr : r.filePath with
              | none => rw [hr] at htr; exact absurd htr (by simp [pathTruthy])
              | some p => rfl
            simp [hany, htr]
          rw [hk]
          simp
        · rw [if_neg h2, ih]
          have hk : specKeepTruthy L r = true := by
            unfold specKeepTruthy
            rw [Bool.and_eq_true]
            constructor
            · simp only [Bool.not_eq_true']
              rw [List.any_eq_false]
              intro t ht
              simp only [decide_eq_true_eq]
              intro he
              exact h1 (he ▸ List.mem_map_of_mem _ ht)
            · simp only [Bool.not_eq_true']
              rw [Bool.and_eq_false_iff]
              by_cases htr : pathTruthy r.filePath = true
              · right
                rw [List.any_eq_false]
                intro t ht
                rw [Bool.not_eq_true, Bool.and_eq_false_iff]
                by_cases htt : pathTruthy t.filePath = true
                · right
                  simp only [decide_eq_false_iff_not]
                  intro hpq
                  apply h2
                  rw [Bool.and_eq_true]
                  refine ⟨htr, ?_⟩
                  rw [decide_eq_true_eq, List.mem_filterMap]
                  refine ⟨t, List.mem_filter.mpr ⟨ht, htt⟩, ?_⟩
                  rw [hpq]
                  cases hr : r.filePath with
                  | none => rw [hr] at htr; exact absurd htr (by simp [pathTruthy])
                  | some p => rfl
                · left
                  exact Bool.of_not_eq_true htt
              · left
                exact Bool.of_not_eq_true htr
          rw [hk]
          simp only [if_true]
          rw [List.append_assoc]
          rfl
  unfold mergeTabs
  exact key R L

/-- C2 (amended): `exitDiffMode` computes the merged tab list as exactly
`leftTabs` in order, followed by those `rightTabs` (in order) whose id is not
among the left ids and whose non-EMPTY `filePath` is not among the left
non-empty `filePath`s (JS truthiness: a `""` path is treated like `null`); a
fresh default tab is inserted when the result is empty; and the new
`activeTabId` is `leftActiveTabId` when that id is present in the result, else
the id of the first result tab.  Left tabs are kept verbatim, so on an id
clash the left version's content wins. -/
theorem diff_merge_left_authoritative (st : StoreState) (d : DiffModeState)
    (fresh a : String) (h : st.diffMode = some d) :
    (exitDiffMode fresh st).session.tabs =
      (if (d.leftTabs ++ d.rightTabs.filter (specKeepTruthy d.leftTabs)).isEmpty
        then [createDefaultTab fresh]
        else d.leftTabs ++ d.rightTabs.filter (specKeepTruthy d.leftTabs)) ∧
    (exitDiffMode fresh st).diffMode = none ∧
    (d.leftActiveTabId = some a →
      (∃ t ∈ (exitDiffMode fresh st).session.tabs, t.id = a) →
      (exitDiffMode fresh st).session.activeTabId = some a) ∧
    (d.leftActiveTabId = some a →
      (¬ ∃ t ∈ (exitDiffMode fresh st).session.tabs, t.id = a) →
      (exitDiffMode fresh st).session.activeTabId =
        some (((exitDiffMode fresh st).session.tabs).getD 0 dtab).id) ∧
    (d.leftActiveTabId = none →
      (exitDiffMode fresh st).session.activeTabId =
        some (((exitDiffMode fresh st).session.tabs).getD 0 dtab).id) := by
  obtain ⟨sess, dm⟩ := st
  have h' : dm = some d := h
  subst h'
  refine ⟨?_, rfl, ?_, ?_, ?_⟩
  · show (if (mergeTabs d.leftTabs d.rightTabs).isEmpty
          then [createDefaultTab fresh]
          else mergeTabs d.leftTabs d.rightTabs) = _
    rw [mergeTabs_eq]
  · intro ha hex
    show (match d.leftActiveTabId with
          | some a' =>
            if ((if (mergeTabs d.leftTabs d.rightTabs).isEmpty
                  then [createDefaultTab fresh]
                  else mergeTabs d.leftTabs d.rightTabs).find?
                  (fun (t : Tab) => t.id = a')).isSome
            then some a'
            else some (((if (mergeTabs d.leftTabs d.rightTabs).isEmpty
                  then [createDefaultTab fresh]
                  else mergeTabs d.leftTabs d.rightTabs).getD 0 dtab).id)
          | none => some (((if (mergeTabs d.leftTabs d.rightTabs).isEmpty
                  then [createDefaultTab fresh]
                  else mergeTabs d.leftTabs d.rightTabs).getD 0 dtab).id)) = some a
    rw [ha]
    have hfind : (((if (mergeTabs d.leftTabs d.rightTabs).isEmpty
          then [createDefaultTab fresh]
          else mergeTabs d.leftTabs d.rightTabs).find?
          (fun t => t.id = a)).isSome) = true := by
      rw [List.find?_isSome]
      obtain ⟨t, ht, he⟩ := hex
      exact ⟨t, ht, by simp [he]⟩
    simp only [hfind, if_true]
  · intro ha hnex
    show (match d.leftActiveTabId with
          | some a' =>
            if ((if (mergeTabs d.leftTabs d.rightTabs).isEmpty
                  then [createDefaultTab fresh]
                  else mergeTabs d.leftTabs d.rightTabs).find?
                  (fun (t : Tab) => t.id = a')).isSome
            then some a'
            else some (((if (mergeTabs d.leftTabs d.rightTabs).isEmpty
                  then [createDefaultTab fresh]
                  else mergeTabs d.leftTabs d.rightTabs).getD 0 dtab).id)
          | none => some (((if (mergeTabs d.leftTabs d.rightTabs).isEmpty
                  then [createDefaultTab fresh]
                  else mergeTabs d.leftTabs d.rightTabs).getD 0 dtab).id)) = _
    rw [ha]
    have hfind : ((if (mergeTabs d.leftTabs d.rightTabs).isEmpty
          then [createDefaultTab fresh]
          else mergeTabs d.leftTabs d.rightTabs).find?
          (fun t => t.id = a)) = none := by
      rw [List.find?_eq_none]
      intro t ht
      simp only [decide_eq_true_eq]
      intro he
      exact hnex ⟨t, ht, he⟩
    simp only [hfind, Option.isSome_none, Bool.false_eq_true, if_false]
    rfl
  · intro ha
    show (match d.leftActiveTabId with
          | some a' =>
            if ((if (mergeTabs d.leftTabs d.rightTabs).isEmpty
                  then [createDefaultTab fresh]
                  else mergeTabs d.leftTabs d.rightTabs).find?
                  (fun (t : Tab) => t.id = a')).isSome
            then some a'
            else some (((if (mergeTabs d.leftTabs d.rightTabs).isEmpty
                  then [createDefaultTab fresh]
                  else mergeTabs d.leftTabs d.rightTabs).getD 0 dtab).id)
          | none => some (((if (mergeTabs d.leftTabs d.rightTabs).isEmpty
                  then [createDefaultTab fresh]
                  else mergeTabs d.leftTabs d.rightTabs).getD 0 dtab).id)) = _
    rw [ha]
    rfl

def exLeftPath : Tab := exPathTab "1" "a.json"
def exRightPath : Tab := exPathTab "2" "a.json"

def exPathStore : StoreState :=
  { session := { tabs := [exTab "A"], activeTabId := some "A" },
    diffMode := some
      { leftTabs := [exLeftPath], rightTabs := [exRightPath],
        leftActiveTabId := some "1", rightActiveTabId := some "2" } }

theorem diff_merge_left_authoritative_witness :
    (exitDiffMode "f" exPathStore).session.tabs =
      (if ([exLeftPath] ++ [exRightPath].filter (specKeepTruthy [exLeftPath])).isEmpty
        then [createDefaultTab "f"]
        else [exLeftPath] ++ [exRightPath].filter (specKeepTruthy [exLeftPath])) ∧
    (exitDiffMode "f" exPathStore).diffMode = none ∧
    (some "1" = some "1" →
      (∃ t ∈ (exitDiffMode "f" exPathStore).session.tabs, t.id = "1") →
      (exitDiffMode "f" exPathStore).session.activeTabId = some "1") ∧
    (some "1" = some "1" →
      (¬ ∃ t ∈ (exitDiffMode "f" exPathStore).session.tabs, t.id = "1") →
      (exitDiffMode "f" exPathStore).session.activeTabId =
        some (((exitDiffMode "f" exPathStore).session.tabs).getD 0 dtab).id) ∧
    (some "1" = (none : Option String) →
      (exitDiffMode "f" exPathStore).session.activeTabId =
        some (((exitDiffMode "f" exPathStore).session.tabs).getD 0 dtab).id) :=
  diff_merge_left_authoritative exPathStore
    { leftTabs := [exLeftPath], rightTabs := [exRightPath],
      leftActiveTabId := some "1", rightActiveTabId := some "2" } "f" "1" rfl

def exEmptyPathL : Tab := { createNewTab "L" with filePath := some "" }
def exEmptyPathR : Tab := { createNewTab "R" with filePath := some "" }

def exEmptyPathStore : StoreState :=
  { session := { tabs := [exTab "A"], activeTabId := some "A" },
    diffMode := some
      { leftTabs := [exEmptyPathL], rightTabs := [exEmptyPathR],
        leftActiveTabId := some "L", rightActiveTabId := some "R" } }

/-! ### Claim C3 — pinned tabs form a contiguous block at the front -/

theorem getD_set_self {l : List α} {p : Nat} (hp : p < l.length) (x d : α) :
    (l.set p x).getD p d = x := by
  rw [set_decomp hp x]
  have h := getD_append_length (l.take p) x (l.drop (p + 1)) d
  rw [List.length_take, Nat.min_eq_left (le_of_lt hp)] at h
  exact h

theorem eraseIdx_set_self {l : List α} {p : Nat} (hp : p < l.length) (x : α) :
    (l.set p x).eraseIdx p = l.eraseIdx p := by
  rw [set_decomp hp x]
  have h := eraseIdx_append_length (l.take p) x (l.drop (p + 1))
  rw [List.length_take, Nat.min_eq_left (le_of_lt hp)] at h
  rw [h, eraseIdx_eq_take_drop]

theorem lastPinnedIdxAux_pinned (m : Nat) (X : List Tab) :
    ∀ (i : Nat) (last : Int), (∀ t ∈ X, t.isPinned = true) → i + X.length ≤ m →
    lastPinnedIdxAux m X i last
      = if X.length = 0 then last else ((i + X.length - 1 : Nat) : Int) := by
  induction X with
  | nil => intro i last _ _; simp [lastPinnedIdxAux]
  | cons t X ih =>
    intro i last hpin hle
    simp only [List.length_cons] at hle ⊢
    have hip : t.isPinned = true := hpin t (List.mem_cons_self _ _)
    have hcond : (t.isPinned && decide (i ≠ m)) = true := by
      rw [hip]
      simp only [Bool.true_and, decide_eq_true_eq]
      omega
    simp only [lastPinnedIdxAux]
    rw [hcond]
    simp only [if_true]
    rw [ih (i + 1) (i : Int) (fun u hu => hpin u (List.mem_cons_of_mem _ hu)) (by omega)]
    by_cases hX : X.length = 0
    · simp [hX]
    · rw [if_neg hX, if_neg (by omega : ¬ X.length + 1 = 0)]
      congr 1
      omega

theorem lastPinnedIdxAux_skip (m : Nat) (Y : List Tab) :
    ∀ (i : Nat) (last : Int),
    (∀ k, k < Y.length → (Y.getD k dtab).isPinned = true → i + k = m) →
    lastPinnedIdxAux m Y i last = last := by
  induction Y with
  | nil => intro i last _; rfl
  | cons t Y ih =>
    intro i last hk
    simp only [lastPinnedIdxAux]
    have hc : (t.isPinned && decide (i ≠ m)) = false := by
      by_cases hp : t.isPinned = true
      · have him : i = m := by
          have := hk 0 (by simp) (by simpa [List.getD] using hp)
          omega
        simp [him]
      · simp [Bool.of_not_eq_true hp]
    rw [hc]
    simp only [Bool.false_eq_true, if_false]
    exact ih (i + 1) last (fun k hk' hpin => by
      have := hk (k + 1) (by simpa using Nat.succ_lt_succ hk')
        (by simpa [List.getD] using hpin)
      omega)

theorem lastPinnedIdxAux_append (m : Nat) (X Y : List Tab) :
    ∀ (i : Nat) (last : Int),
    lastPinnedIdxAux m (X ++ Y) i last
      = lastPinnedIdxAux m Y (i + X.length) (lastPinnedIdxAux m X i last) := by
  induction X with
  | nil => intro i last; simp [lastPinnedIdxAux]
  | cons t X ih =>
    intro i last
    simp only [List.cons_append, lastPinnedIdxAux, List.length_cons, List.append_eq]
    rw [ih]
    congr 1
    omega

theorem firstUnpinnedIdxAux_skip (m : Nat) (X : List Tab) :
    ∀ (Y : List Tab) (i : Nat),
    (∀ k, k < X.length → (X.getD k dtab).isPinned = false → i + k = m) →
    firstUnpinnedIdxAux m (X ++ Y) i = firstUnpinnedIdxAux m Y (i + X.length) := by
  induction X with
  | nil => intro Y i _; simp [firstUnpinnedIdxAux]
  | cons t X ih =>
    intro Y i hk
    simp only [List.cons_append, firstUnpinnedIdxAux, List.length_cons, List.append_eq]
    have hc : (!t.isPinned && decide (i ≠ m)) = false := by
      by_cases hp : t.isPinned = true
      · simp [hp]
      · have hp' : t.isPinned = false := Bool.of_not_eq_true hp
        have him : i = m := by
          have := hk 0 (by simp) (by simpa [List.getD] using hp')
          omega
        simp [him]
    rw [hc]
    simp only [Bool.false_eq_true, if_false]
    rw [ih Y (i + 1) (fun k hk' hpin => by
      have := hk (k + 1) (by simpa using Nat.succ_lt_succ hk')
        (by simpa [List.getD] using hpin)
      omega)]
    congr 1
    omega

theorem firstUnpinnedIdxAux_hit (m : Nat) (Y : List Tab) (i : Nat)
    (hne : i ≠ m) (hY : (Y.getD 0 dtab).isPinned = false) (hlen : Y ≠ []) :
    firstUnpinnedIdxAux m Y i = (i : Int) := by
  cases Y with
  | nil => exact absurd rfl hlen
  | cons t Y =>
    simp only [List.getD_cons_zero] at hY
    simp only [firstUnpinnedIdxAux]
    have hc : (!t.isPinned && decide (i ≠ m)) = true := by
      simp [hY, hne]
    rw [hc]
    simp

theorem getD_set_ne {l : List α} {p k : Nat} (h : p ≠ k) (x d : α) :
    (l.set p x).getD k d = l.getD k d := by
  rw [List.getD_eq_getD_get?, List.getD_eq_getD_get?, List.get?_eq_getElem?,
    List.get?_eq_getElem?, List.getElem?_set_ne h]

theorem togglePin_pin_case (A B : List Tab) (m : Nat) (u : Tab)
    (hA : ∀ t ∈ A, t.isPinned = true) (hB : ∀ t ∈ B, t.isPinned = false)
    (hcase : A.length ≤ m) (hpB : m - A.length < B.length)
    (hu : u.isPinned = true) :
    PinnedFront (moveTab ((A ++ B).set m u) m
      ((lastPinnedIdx ((A ++ B).set m u) m + 1).toNat)) := by
  rw [List.set_append_right _ _ hcase]
  have hk : ∀ k, k < (B.set (m - A.length) u).length →
      ((B.set (m - A.length) u).getD k dtab).isPinned = true →
      (0 + A.length) + k = m := by
    intro k hkl hpin
    rw [List.length_set] at hkl
    by_cases hkp : k = m - A.length
    · omega
    · rw [getD_set_ne (fun hq => hkp hq.symm) _ dtab] at hpin
      rw [hB _ (getD_mem hkl dtab)] at hpin
      exact Bool.noConfusion hpin
  have hlast : lastPinnedIdx (A ++ B.set (m - A.length) u) m
      = (A.length : Int) - 1 := by
    unfold lastPinnedIdx
    rw [lastPinnedIdxAux_append,
      lastPinnedIdxAux_skip m _ (0 + A.length) _ hk,
      lastPinnedIdxAux_pinned m A 0 (-1) hA (by omega)]
    by_cases hA0 : A.length = 0
    · simp [hA0]
    · rw [if_neg hA0]
      omega
  rw [hlast, (by omega : ((A.length : Int) - 1 + 1).toNat = A.length)]
  by_cases hmeq : m = A.length
  · unfold moveTab
    rw [if_pos hmeq]
    rw [(by omega : m - A.length = 0)]
    cases B with
    | nil => simp at hpB
    | cons b B₂ =>
      rw [List.set_cons_zero]
      refine ⟨A ++ [u], B₂, by simp, ?_, ?_⟩
      · intro t ht
        rcases List.mem_append.mp ht with h1 | h2
        · exact hA t h1
        · rw [List.mem_singleton.mp h2]
          exact hu
      · intro t ht
        exact hB t (List.mem_cons_of_mem _ ht)
  · unfold moveTab
    rw [if_neg hmeq]
    have hlen2 : m < (A ++ B.set (m - A.length) u).length := by
      simp only [List.length_append, List.length_set]
      omega
    rw [get?_eq_getD hlen2 dtab]
    have hgd : (A ++ B.set (m - A.length) u).getD m dtab = u := by
      rw [List.getD_append_right _ _ _ _ hcase, getD_set_self hpB]
    rw [hgd]
    show PinnedFront (spliceInsert
      ((A ++ B.set (m - A.length) u).eraseIdx m) A.length u)
    have herase : (A ++ B.set (m - A.length) u).eraseIdx m
        = A ++ B.eraseIdx (m - A.length) := by
      rw [List.eraseIdx_append_of_length_le hcase, eraseIdx_set_self hpB]
    rw [herase]
    have hsplice : spliceInsert (A ++ B.eraseIdx (m - A.length)) A.length u
        = A ++ u :: B.eraseIdx (m - A.length) := by
      unfold spliceInsert
      rw [List.take_left, List.drop_left]
    rw [hsplice]
    refine ⟨A ++ [u], B.eraseIdx (m - A.length), by simp, ?_, ?_⟩
    · intro t ht
      rcases List.mem_append.mp ht with h1 | h2
      · exact hA t h1
      · rw [List.mem_singleton.mp h2]
        exact hu
    · intro t ht
      exact hB t (List.eraseIdx_subset _ _ ht)

theorem togglePin_unpin_case (A B : List Tab) (m : Nat) (u : Tab)
    (hA : ∀ t ∈ A, t.isPinned = true) (hB : ∀ t ∈ B, t.isPinned = false)
    (hmA : m < A.length) (hu : u.isPinned = false) :
    PinnedFront (moveTab ((A ++ B).set m u) m
      (if firstUnpinnedIdx ((A ++ B).set m u) m = -1
        then ((A ++ B).set m u).length - 1
        else (firstUnpinnedIdx ((A ++ B).set m u) m).toNat)) := by
  rw [List.set_append_left _ _ hmA]
  have hskip : ∀ k, k < (A.set m u).length →
      ((A.set m u).getD k dtab).isPinned = false → 0 + k = m := by
    intro k hkl hup
    rw [List.length_set] at hkl
    by_cases hkm : k = m
    · omega
    · rw [getD_set_ne (fun hq => hkm hq.symm) _ dtab] at hup
      rw [hA _ (getD_mem hkl dtab)] at hup
      exact Bool.noConfusion hup
  cases B with
  | cons b B₂ =>
    have hfu2 : firstUnpinnedIdx (A.set m u ++ b :: B₂) m = (A.length : Int) := by
      unfold firstUnpinnedIdx
      rw [firstUnpinnedIdxAux_skip m _ (b :: B₂) 0 hskip]
      rw [List.length_set]
      rw [firstUnpinnedIdxAux_hit m (b :: B₂) (0 + A.length) (by omega)
        (by simpa [List.getD] using hB b (List.mem_cons_self _ _)) (by simp)]
      omega
    rw [hfu2, if_neg (by omega : ¬ ((A.length : Int) = -1)),
      (by omega : ((A.length : Int)).toNat = A.length)]
    unfold moveTab
    rw [if_neg (by omega : ¬ (m = A.length))]
    have hlen2 : m < (A.set m u ++ b :: B₂).length := by
      simp only [List.length_append, List.length_set]
      omega
    rw [get?_eq_getD hlen2 dtab]
    have hgd : (A.set m u ++ b :: B₂).getD m dtab = u := by
      rw [List.getD_append _ _ _ _ (by rw [List.length_set]; exact hmA),
        getD_set_self hmA]
    rw [hgd]
    show PinnedFront (spliceInsert ((A.set m u ++ b :: B₂).eraseIdx m) A.length u)
    have herase : (A.set m u ++ b :: B₂).eraseIdx m = A.eraseIdx m ++ b :: B₂ := by
      rw [List.eraseIdx_append_of_lt_length (by rw [List.length_set]; exact hmA),
        eraseIdx_set_self hmA]
    rw [herase]
    have hElen : (A.eraseIdx m).length = A.length - 1 := by
      have := List.length_eraseIdx_add_one hmA
      omega
    have hsplice : spliceInsert (A.eraseIdx m ++ b :: B₂) A.length u
        = A.eraseIdx m ++ b :: u :: B₂ := by
      unfold spliceInsert
      rw [List.take_append_eq_append_take, List.drop_append_eq_append_drop]
      rw [List.take_of_length_le (by omega), List.drop_eq_nil_of_le (by omega)]
      rw [hElen, (by omega : A.length - (A.length - 1) = 1)]
      simp
    rw [hsplice]
    refine ⟨A.eraseIdx m, b :: u :: B₂, rfl, ?_, ?_⟩
    · intro t ht
      exact hA t (List.eraseIdx_subset _ _ ht)
    · intro t ht
      rcases List.mem_cons.mp ht with h1 | h2
      · rw [h1]
        exact hB b (List.mem_cons_self _ _)
      · rcases List.mem_cons.mp h2 with h3 | h4
        · rw [h3]
          exact hu
        · exact hB t (List.mem_cons_of_mem _ h4)
  | nil =>
    have hfu3 : firstUnpinnedIdx (A.set m u ++ ([] : List Tab)) m = -1 := by
      unfold firstUnpinnedIdx
      rw [firstUnpinnedIdxAux_skip m _ [] 0 hskip]
      rfl
    rw [hfu3, if_pos rfl]
    have hlen3 : (A.set m u ++ ([] : List Tab)).length = A.length := by
      simp
    rw [hlen3]
    simp only [List.append_nil]
    by_cases hm1 : m = A.length - 1
    · unfold moveTab
      rw [if_pos hm1]
      rw [set_decomp hmA]
      have hdrop : A.drop (m + 1) = [] := List.drop_eq_nil_of_le (by omega)
      rw [hdrop]
      refine ⟨A.take m, [u], rfl, ?_, ?_⟩
      · intro t ht
        exact hA t (List.mem_of_mem_take ht)
      · intro t ht
        rw [List.mem_singleton.mp ht]
        exact hu
    · unfold moveTab
      rw [if_neg hm1]
      have hlen4 : m < (A.set m u).length := by
        rw [List.length_set]
        exact hmA
      rw [get?_eq_getD hlen4 dtab]
      rw [getD_set_self hmA]
      show PinnedFront (spliceInsert ((A.set m u).eraseIdx m) (A.length - 1) u)
      rw [eraseIdx_set_self hmA]
      have hElen : (A.eraseIdx m).length = A.length - 1 := by
        have := List.length_eraseIdx_add_one hmA
        omega
      have hsplice : spliceInsert (A.eraseIdx m) (A.length - 1) u
          = A.eraseIdx m ++ [u] := by
        unfold spliceInsert
        rw [List.take_of_length_le (by omega), List.drop_eq_nil_of_le (by omega)]
      rw [hsplice]
      refine ⟨A.eraseIdx m, [u], rfl, ?_, ?_⟩
      · intro t ht
        exact hA t (List.eraseIdx_subset _ _ ht)
      · intro t ht
        rw [List.mem_singleton.mp ht]
        exact hu

theorem pinnedFront_iff (l : List Tab) :
    PinnedFront l ↔ pinnedFrontB l = true := by
  constructor
  · rintro ⟨A, B, rfl, hA, hB⟩
    unfold pinnedFrontB
    rw [List.dropWhile_append_of_pos (by intro a ha; exact hA a ha)]
    cases B with
    | nil => rfl
    | cons b B₂ =>
      rw [List.dropWhile_cons_of_neg (by rw [hB b (List.mem_cons_self _ _)]; simp)]
      rw [List.all_eq_true]
      intro t ht
      rw [hB t ht]
      rfl
  · intro hb
    refine ⟨l.takeWhile (fun t => t.isPinned), l.dropWhile (fun t => t.isPinned),
      (List.takeWhile_append_dropWhile _ _).symm, ?_, ?_⟩
    · intro t ht
      exact List.mem_takeWhile_imp ht
    · intro t ht
      unfold pinnedFrontB at hb
      rw [List.all_eq_true] at hb
      have := hb t ht
      simpa using this

theorem togglePin_preserves (tabId : String) (s : TabsState)
    (h : PinnedFront s.tabs) : PinnedFront (togglePinTab tabId s).tabs := by
  unfold togglePinTab
  cases hfi : jsFindIndex (fun t => t.id = tabId) s.tabs with
  | none => exact h
  | some m =>
    have hm : m < s.tabs.length := jsFindIndex_lt_length hfi
    obtain ⟨A, B, hsplit, hA, hB⟩ := h
    rw [hsplit] at hm ⊢
    simp only
    rw [List.length_append] at hm
    by_cases hcase : A.length ≤ m
    · have hpB : m - A.length < B.length := by omega
      have htpin : ((A ++ B).getD m dtab).isPinned = false := by
        rw [List.getD_append_right A B dtab m hcase]
        exact hB _ (getD_mem hpB dtab)
      rw [htpin]
      simp only [Bool.not_false]
      rw [if_pos trivial]
      exact togglePin_pin_case A B m _ hA hB hcase hpB rfl
    · have hmA : m < A.length := by omega
      have htpin : ((A ++ B).getD m dtab).isPinned = true := by
        rw [List.getD_append A B dtab m hmA]
        exact hA _ (getD_mem hmA dtab)
      rw [htpin]
      simp only [Bool.not_true]
      rw [if_neg Bool.false_ne_true]
      exact togglePin_unpin_case A B m _ hA hB hmA rfl

/-- C3 (amended): starting from any state satisfying the pinned-prefix
invariant, every sequence of `togglePinTab` calls preserves it: the set of
pinned tabs forms a contiguous block at the front of the ordered tab
collection afterward.  (`reorderTabs` does NOT preserve the invariant — see
`reorder_breaks_pinned_front` — as §4.1 of the spec itself concedes.) -/
theorem pinned_front_preserved (s : TabsState) (ids : List String)
    (h : PinnedFront s.tabs) : PinnedFront (applyPinSeq ids s).tabs := by
  induction ids generalizing s with
  | nil => exact h
  | cons i ids ih => exact ih _ (togglePin_preserves i s h)

theorem pinned_front_preserved_witness :
    PinnedFront (applyPinSeq ["U", "P"]
      { tabs := [exPinnedTab "P", exTab "U"], activeTabId := some "P" }).tabs :=
  pinned_front_preserved
    { tabs := [exPinnedTab "P", exTab "U"], activeTabId := some "P" }
    ["U", "P"] ((pinnedFront_iff _).mpr (by decide))

/-- C3 counterexample: `reorderTabs` can break the pinned-prefix invariant:
from the invariant-satisfying state `[P(pinned), U]`, `reorderTabs(0, 1)`
yields `[U, P]`, where the pinned tab no longer occupies a contiguous block at
the front. -/
theorem reorder_breaks_pinned_front :
    PinnedFront [exPinnedTab "P", exTab "U"] ∧
    (reorderTabs 0 1
      { tabs := [exPinnedTab "P", exTab "U"], activeTabId := some "P" }).tabs
      = [exTab "U", exPinnedTab "P"] ∧
    ¬ PinnedFront (reorderTabs 0 1
        { tabs := [exPinnedTab "P", exTab "U"], activeTabId := some "P" }).tabs := by
  refine ⟨(pinnedFront_iff _).mpr (by decide), by decide, ?_⟩
  rw [pinnedFront_iff]
  decide

/-- C2 counterexample: a right tab whose non-null `filePath` (`some ""`)
duplicates a left tab's non-null `filePath` and has a different id is NOT
dropped by the code — `rightTab.filePath && ...` is falsy for `""` — so the
merge keeps `[L, R]` while the claim's "non-null filePath" filter predicts
`[L]`. -/
theorem merge_keeps_empty_path_duplicate :
    (exitDiffMode "f" exEmptyPathStore).session.tabs = [exEmptyPathL, exEmptyPathR] ∧
    exEmptyPathL.filePath ≠ none ∧
    exEmptyPathR.filePath ≠ none ∧
    exEmptyPathL.filePath = exEmptyPathR.filePath ∧
    exEmptyPathL.id ≠ exEmptyPathR.id ∧
    [exEmptyPathL] ++ [exEmptyPathR].filter (specKeepNonNull [exEmptyPathL])
      = [exEmptyPathL] ∧
    (exitDiffMode "f" exEmptyPathStore).session.tabs ≠
      [exEmptyPathL] ++ [exEmptyPathR].filter (specKeepNonNull [exEmptyPathL]) := by
  refine ⟨by decide, by decide, by decide, by decide, by decide, by decide, by decide⟩

end JsonStudio
